import Mathlib

/-!
Shallow embedding of the expense-splitter core (src/main.py): the balance
computation of the GET /balances handler (get_balances, lines 214-237) and
the settlement computation of the GET /settlements handler (get_settlements,
lines 160-212).

Modelling conventions:
* Monetary values are exact rationals.  The Python code computes with binary
  floats; this development idealizes float arithmetic as exact rational
  arithmetic, and models Python's builtin round(x, 2) (round-half-to-even on
  the value) as half-even rounding on rationals.  Every concrete input used
  below was chosen so that the idealization agrees with the float run on the
  facts being established.
* Python dicts are ordered association lists: insertion order is preserved,
  an update of an existing key keeps its position.
* The list assignments `debtors[i] = ...` / `creditors[j] = ...` at lines
  209-210 raise IndexError when the index is out of range (the conditional
  expression only guards the assigned value, not the assignment itself);
  this is modelled by an explicit error result that carries the settlements
  appended before the exception.
-/

/-- An expense row as the core reads it: `amount` and `paid_by`.  The id,
description and created_at columns of the expenses table are never used by
the balance or settlement computations. -/
structure ExpenseRecord where
  amount : ℚ
  paid_by : String
  deriving DecidableEq, Repr

/-- Round a rational to the nearest integer, ties to the even integer:
the rounding Python's builtin `round` applies to the (idealized) value. -/
def rhe (x : ℚ) : ℤ :=
  if x - ⌊x⌋ < 1/2 then ⌊x⌋
  else if 1/2 < x - ⌊x⌋ then ⌊x⌋ + 1
  else if ⌊x⌋ % 2 = 0 then ⌊x⌋ else ⌊x⌋ + 1

/-- Python's `round(x, 2)`: round to 2 fraction digits, half to even. -/
def round2 (x : ℚ) : ℚ := (rhe (100 * x) : ℚ) / 100

/-- Round to the nearest integer with ties away from zero.  This follows the
spec's words ("Round-half-up: a value exactly halfway between two
representable amounts rounds away from zero"), for comparison with the
rounding the code actually performs. -/
def rhu (x : ℚ) : ℤ := if 0 ≤ x then ⌊x + 1/2⌋ else -⌊(-x) + 1/2⌋

/-- Round to 2 fraction digits with ties away from zero (the spec's claimed
rounding mode for balances). -/
def roundHalfUp2 (x : ℚ) : ℚ := (rhu (100 * x) : ℚ) / 100

/-- One step of the dict accumulation
`balances[person] = balances.get(person, 0) + amount` (lines 175-178 and
229-232): update the first binding of the key in place, or append a new
binding at the end, exactly as a Python dict does. -/
def addAmount : List (String × ℚ) → String → ℚ → List (String × ℚ)
  | [], p, a => [(p, a)]
  | pb :: rest, p, a =>
    if pb.1 = p then (pb.1, pb.2 + a) :: rest else pb :: addAmount rest p a

/-- Dict lookup with default 0: `balances.get(person, 0)`. -/
def lookupAmt : List (String × ℚ) → String → ℚ
  | [], _ => 0
  | pb :: rest, p => if pb.1 = p then pb.2 else lookupAmt rest p

/-- The keys of an association list, in order. -/
def keysOf (m : List (String × ℚ)) : List String := m.map Prod.fst

/-- `total_amount = sum(float(row["amount"]) for row in rows)`
(lines 168 and 222). -/
def total_amount (rows : List ExpenseRecord) : ℚ :=
  (rows.map ExpenseRecord.amount).sum

/-- `num_people = len(set(row["paid_by"] for row in rows))`
(lines 169 and 223): the number of distinct payers. -/
def num_people (rows : List ExpenseRecord) : Nat :=
  (rows.map ExpenseRecord.paid_by).dedup.length

/-- `fair_share = total_amount / num_people` (lines 173 and 227). -/
def fair_share (rows : List ExpenseRecord) : ℚ :=
  total_amount rows / (num_people rows : ℚ)

/-- The per-payer paid totals dict built by the accumulation loop
(lines 174-178 and 228-232). -/
def raw_balances (rows : List ExpenseRecord) : List (String × ℚ) :=
  rows.foldl (fun m r => addAmount m r.paid_by r.amount) []

/-- The GET /balances computation (get_balances, lines 214-237): per-payer
paid totals minus the fair share, each rounded with `round(..., 2)`
(line 235). -/
def get_balances (rows : List ExpenseRecord) : List (String × ℚ) :=
  if rows = [] then []
  else if num_people rows = 0 then []
  else (raw_balances rows).map
    (fun pb => (pb.1, round2 (pb.2 - fair_share rows)))

/-- The balance mapping get_settlements computes internally (lines 168-181):
identical to get_balances except that the per-payer result is NOT rounded
(line 181 has no round call, unlike line 235). -/
def settlement_balances (rows : List ExpenseRecord) : List (String × ℚ) :=
  if rows = [] then []
  else if num_people rows = 0 then []
  else (raw_balances rows).map (fun pb => (pb.1, pb.2 - fair_share rows))

/-- One emitted transfer: the dict
`{"from": debtor, "to": creditor, "amount": round(amount, 2)}` (lines
195-199). -/
structure Settlement where
  from_payer : String
  to_payer : String
  amount : ℚ
  deriving DecidableEq, Repr

/-- Result of the settlement loop.  `ok` is a normal return; `indexError`
models the IndexError raised by an out-of-range list assignment at lines
209-210, carrying the settlements appended before the exception;
`outOfFuel` is the artifact of bounding the while loop by a fuel (the fuel
supplied by callers exceeds the maximal number of iterations, since every
iteration advances at least one pointer). -/
inductive SettleResult where
  | ok (settlements : List Settlement)
  | indexError (emitted : List Settlement)
  | outOfFuel (emitted : List Settlement)
  deriving DecidableEq, Repr

/-- The settlements appended to the local `settlements` list during the run,
whether or not the loop finished normally. -/
def SettleResult.emitted : SettleResult → List Settlement
  | .ok s => s
  | .indexError s => s
  | .outOfFuel s => s

/-- The while loop of get_settlements (lines 187-210), fuel-bounded.
Each iteration: read the tuples at the pointers, take absolute values
(line 191), transfer `min(debt, credit)` — emitting it rounded when the
unrounded amount is positive (lines 193-199) — subtract it from both sides
(lines 201-202), advance a pointer when its side is exhausted (≤ 0.01,
lines 204-207), then perform the two list assignments of lines 209-210,
which raise IndexError when the advanced pointer equals the list length,
because `debtors[i] = (...) if i < len(debtors) else None` only guards the
assigned value, not the assignment. -/
def settleLoop : Nat → List (String × ℚ) → List (String × ℚ) → Nat → Nat →
    List Settlement → SettleResult
  | 0, _, _, _, _, acc => .outOfFuel acc
  | fuel + 1, debtors, creditors, i, j, acc =>
    if i < debtors.length ∧ j < creditors.length then
      let d := debtors.getD i ("", 0)
      let c := creditors.getD j ("", 0)
      let debt := |d.2|
      let credit := |c.2|
      let amount := min debt credit
      let acc2 := if 0 < amount then acc ++ [⟨d.1, c.1, round2 amount⟩] else acc
      let debt2 := debt - amount
      let credit2 := credit - amount
      let i2 := if debt2 ≤ 1/100 then i + 1 else i
      let j2 := if credit2 ≤ 1/100 then j + 1 else j
      if i2 < debtors.length then
        if j2 < creditors.length then
          settleLoop fuel (debtors.set i2 (d.1, -debt2))
            (creditors.set j2 (c.1, credit2)) i2 j2 acc2
        else .indexError acc2
      else .indexError acc2
    else .ok acc

/-- The settlement planner applied to a balance mapping: partition into
debtors (negative balance) and creditors (positive balance) in mapping
order (lines 184-185), then run the matching loop of lines 187-210.  The
fuel exceeds the maximal number of loop iterations. -/
def computeSettlements (balances : List (String × ℚ)) : SettleResult :=
  settleLoop
    ((balances.filter (fun pb => decide (pb.2 < 0))).length +
      (balances.filter (fun pb => decide (0 < pb.2))).length + 1)
    (balances.filter (fun pb => decide (pb.2 < 0)))
    (balances.filter (fun pb => decide (0 < pb.2))) 0 0 []

/-- The GET /settlements computation (get_settlements, lines 160-212):
empty-row and zero-people early returns (lines 165-166 and 170-171), then
the matching loop applied to the unrounded balance mapping. -/
def get_settlements (rows : List ExpenseRecord) : SettleResult :=
  if rows = [] then .ok []
  else if num_people rows = 0 then .ok []
  else computeSettlements (settlement_balances rows)

/-- Apply a list of settlements to a balance mapping: subtract each
settlement's amount from its from_payer and add it to its to_payer. -/
def applySettlements (bal : List (String × ℚ)) (ss : List Settlement) :
    List (String × ℚ) :=
  ss.foldl
    (fun m s => addAmount (addAmount m s.from_payer (-s.amount)) s.to_payer s.amount)
    bal

/-- Total paid by one payer: the sum of the amounts of that payer's rows. -/
def paid_total (p : String) (rows : List ExpenseRecord) : ℚ :=
  ((rows.filter (fun r => r.paid_by == p)).map ExpenseRecord.amount).sum

/-! Rounding lemmas. -/

/-- Half-even rounding moves a value by at most one half. -/
theorem abs_rhe_sub_le (x : ℚ) : |(rhe x : ℚ) - x| ≤ 1/2 := by
  have h0 : (⌊x⌋ : ℚ) ≤ x := Int.floor_le x
  have h1 : x < ⌊x⌋ + 1 := Int.lt_floor_add_one x
  unfold rhe
  split_ifs with hc1 hc2 hc3 <;>
    (rw [abs_le]; push_cast; constructor <;> linarith)

/-- Rounding to two fraction digits moves a value by at most half a cent. -/
theorem abs_round2_sub_le (x : ℚ) : |round2 x - x| ≤ 1/200 := by
  have h := abs_rhe_sub_le (100 * x)
  unfold round2
  rw [show (rhe (100*x) : ℚ)/100 - x = ((rhe (100*x) : ℚ) - 100*x)/100 by ring,
    abs_div, abs_of_pos (show (0:ℚ) < 100 by norm_num)]
  linarith

/-- Rounding a nonnegative value to two fraction digits stays nonnegative. -/
theorem round2_nonneg (x : ℚ) (hx : 0 ≤ x) : 0 ≤ round2 x := by
  have hf : (0:ℤ) ≤ ⌊100 * x⌋ := Int.floor_nonneg.mpr (by positivity)
  have hf1 : (0:ℤ) ≤ ⌊100 * x⌋ + 1 := by omega
  unfold round2 rhe
  split_ifs <;> refine div_nonneg ?_ (by norm_num) <;>
    first
      | exact_mod_cast hf
      | exact_mod_cast hf1

/-! Association-list (Python dict) lemmas. -/

/-- Effect of one accumulation step on a lookup. -/
theorem lookupAmt_addAmount (m : List (String × ℚ)) (q : String) (a : ℚ)
    (p : String) :
    lookupAmt (addAmount m q a) p = lookupAmt m p + if q = p then a else 0 := by
  induction m with
  | nil => simp [addAmount, lookupAmt]
  | cons pb rest ih =>
    simp only [addAmount]
    split_ifs with h1 <;> simp only [lookupAmt] <;> split_ifs with h2 <;>
      simp_all

/-- Accumulating all rows adds each payer's paid total to the lookup. -/
theorem lookupAmt_foldl (rows : List ExpenseRecord) (m : List (String × ℚ))
    (p : String) :
    lookupAmt (rows.foldl (fun m r => addAmount m r.paid_by r.amount) m) p =
      lookupAmt m p + paid_total p rows := by
  induction rows generalizing m with
  | nil => simp [paid_total]
  | cons r t ih =>
    rw [List.foldl_cons, ih, lookupAmt_addAmount]
    simp only [paid_total, List.filter_cons]
    by_cases h : r.paid_by = p
    · simp [h, paid_total]
      ring
    · simp [h, paid_total]

/-- Looking up a payer in the paid-totals dict gives that payer's total. -/
theorem lookupAmt_raw_balances (rows : List ExpenseRecord) (p : String) :
    lookupAmt (raw_balances rows) p = paid_total p rows := by
  rw [raw_balances, lookupAmt_foldl]
  simp [lookupAmt]

/-- Membership in the keys after one accumulation step. -/
theorem mem_keysOf_addAmount (m : List (String × ℚ)) (q : String) (a : ℚ)
    (p : String) :
    p ∈ keysOf (addAmount m q a) ↔ p ∈ keysOf m ∨ p = q := by
  induction m with
  | nil => simp [addAmount, keysOf, eq_comm]
  | cons pb rest ih =>
    simp only [addAmount]
    split_ifs with h1 <;> simp_all [keysOf] <;> tauto

/-- Membership in the keys of the accumulated dict. -/
theorem mem_keysOf_foldl (rows : List ExpenseRecord) (m : List (String × ℚ))
    (p : String) :
    p ∈ keysOf (rows.foldl (fun m r => addAmount m r.paid_by r.amount) m) ↔
      p ∈ keysOf m ∨ p ∈ rows.map ExpenseRecord.paid_by := by
  induction rows generalizing m with
  | nil => simp
  | cons r t ih =>
    rw [List.foldl_cons, ih, mem_keysOf_addAmount]
    simp
    tauto

/-- An accumulation step keeps the keys duplicate-free. -/
theorem nodup_keysOf_addAmount (m : List (String × ℚ)) (q : String) (a : ℚ)
    (h : (keysOf m).Nodup) : (keysOf (addAmount m q a)).Nodup := by
  induction m with
  | nil => simp [addAmount, keysOf]
  | cons pb rest ih =>
    simp only [addAmount]
    split_ifs with h1
    · simpa [keysOf] using h
    · simp only [keysOf, List.map_cons, List.nodup_cons] at h ⊢
      refine ⟨?_, ih h.2⟩
      rw [show (addAmount rest q a).map Prod.fst = keysOf (addAmount rest q a)
        from rfl, mem_keysOf_addAmount]
      rintro (hc | hc)
      · exact h.1 hc
      · exact h1 hc

/-- The key set after one accumulation step. -/
theorem toFinset_keysOf_addAmount (m : List (String × ℚ)) (q : String)
    (a : ℚ) :
    (keysOf (addAmount m q a)).toFinset = insert q (keysOf m).toFinset := by
  induction m with
  | nil => simp [addAmount, keysOf]
  | cons pb rest ih =>
    simp only [addAmount]
    split_ifs with h1
    · subst h1
      simp [keysOf]
    · simp only [keysOf, List.map_cons, List.toFinset_cons] at ih ⊢
      rw [ih, Finset.Insert.comm]

/-- The key set of the accumulated dict. -/
theorem toFinset_keysOf_foldl (rows : List ExpenseRecord)
    (m : List (String × ℚ)) :
    (keysOf (rows.foldl (fun m r => addAmount m r.paid_by r.amount) m)).toFinset
      = (keysOf m).toFinset ∪ (rows.map ExpenseRecord.paid_by).toFinset := by
  induction rows generalizing m with
  | nil => simp
  | cons r t ih =>
    rw [List.foldl_cons, ih, toFinset_keysOf_addAmount]
    ext x
    simp

/-- The accumulated dict keeps its keys duplicate-free. -/
theorem nodup_keysOf_foldl (rows : List ExpenseRecord)
    (m : List (String × ℚ)) (h : (keysOf m).Nodup) :
    (keysOf (rows.foldl (fun m r => addAmount m r.paid_by r.amount) m)).Nodup := by
  induction rows generalizing m with
  | nil => exact h
  | cons r t ih => exact ih _ (nodup_keysOf_addAmount _ _ _ h)

/-- The paid-totals dict has one entry per distinct payer. -/
theorem length_raw_balances (rows : List ExpenseRecord) :
    (raw_balances rows).length = num_people rows := by
  have hnd : (keysOf (raw_balances rows)).Nodup :=
    nodup_keysOf_foldl rows [] (by simp [keysOf])
  have hfin : (keysOf (raw_balances rows)).toFinset =
      (rows.map ExpenseRecord.paid_by).toFinset := by
    rw [raw_balances, toFinset_keysOf_foldl]
    simp [keysOf]
  have h1 : (keysOf (raw_balances rows)).length = (raw_balances rows).length :=
    List.length_map _ _
  rw [← h1, ← List.toFinset_card_of_nodup hnd, hfin, List.card_toFinset,
    num_people]

/-- One accumulation step adds its amount to the sum of dict values. -/
theorem sum_snd_addAmount (m : List (String × ℚ)) (q : String) (a : ℚ) :
    ((addAmount m q a).map Prod.snd).sum = (m.map Prod.snd).sum + a := by
  induction m with
  | nil => simp [addAmount]
  | cons pb rest ih =>
    simp only [addAmount]
    split_ifs with h1 <;> simp [ih] <;> ring

/-- The dict values of the paid totals sum to the total amount. -/
theorem sum_snd_raw_balances (rows : List ExpenseRecord) :
    ((raw_balances rows).map Prod.snd).sum = total_amount rows := by
  suffices h : ∀ m : List (String × ℚ),
      ((rows.foldl (fun m r => addAmount m r.paid_by r.amount) m).map
        Prod.snd).sum = (m.map Prod.snd).sum + total_amount rows by
    simpa [raw_balances] using h []
  induction rows with
  | nil => simp [total_amount]
  | cons r t ih =>
    intro m
    rw [List.foldl_cons, ih, sum_snd_addAmount]
    simp [total_amount]
    ring

/-- Looking up a key of the rounded balance mapping applies the rounding to
the original lookup. -/
theorem lookupAmt_map_round_sub (m : List (String × ℚ)) (c : ℚ) (p : String)
    (h : p ∈ keysOf m) :
    lookupAmt (m.map (fun pb => (pb.1, round2 (pb.2 - c)))) p =
      round2 (lookupAmt m p - c) := by
  induction m with
  | nil => simp [keysOf] at h
  | cons pb rest ih =>
    simp only [List.map_cons, lookupAmt]
    split_ifs with h1
    · rfl
    · refine ih ?_
      simp only [keysOf, List.map_cons, List.mem_cons] at h
      exact h.resolve_left (fun hc => h1 hc.symm)

/-- A non-empty row list has at least one distinct payer. -/
theorem num_people_ne_zero (rows : List ExpenseRecord) (h : rows ≠ []) :
    num_people rows ≠ 0 := by
  unfold num_people
  simp only [ne_eq, List.length_eq_zero, List.dedup_eq_nil,
    List.map_eq_nil_iff]
  exact h

/-! Lemmas about sums of rounded values. -/

/-- Rounding each element of a list moves its sum by at most half a cent per
element. -/
theorem abs_sum_map_round2_sub_le (l : List ℚ) :
    |(l.map round2).sum - l.sum| ≤ (l.length : ℚ) / 200 := by
  induction l with
  | nil => simp
  | cons x t ih =>
    have hx := abs_round2_sub_le x
    have : (round2 x + (t.map round2).sum) - (x + t.sum) =
        (round2 x - x) + ((t.map round2).sum - t.sum) := by ring
    simp only [List.map_cons, List.sum_cons, List.length_cons]
    rw [this]
    calc |(round2 x - x) + ((t.map round2).sum - t.sum)|
        ≤ |round2 x - x| + |(t.map round2).sum - t.sum| := abs_add _ _
      _ ≤ 1/200 + (t.length : ℚ) / 200 := by linarith
      _ = ((t.length : ℚ) + 1) / 200 := by ring
      _ = (((t.length + 1 : ℕ)) : ℚ) / 200 := by push_cast; ring

/-- Subtracting a constant from every dict value subtracts length-times the
constant from the value sum. -/
theorem sum_map_snd_sub_const (l : List (String × ℚ)) (c : ℚ) :
    (l.map (fun pb => pb.2 - c)).sum = (l.map Prod.snd).sum - l.length * c := by
  induction l with
  | nil => simp
  | cons pb t ih =>
    simp only [List.map_cons, List.sum_cons, List.length_cons, ih]
    push_cast
    ring

/-! Invariant of the settlement loop. -/

/-- Every settlement appended by the matching loop carries a nonnegative
amount: the emitted amount is `round(min(debt, credit), 2)` with both sides
taken as absolute values. -/
theorem settleLoop_emitted_nonneg (fuel : Nat) :
    ∀ (debtors creditors : List (String × ℚ)) (i j : Nat)
      (acc : List Settlement), (∀ s ∈ acc, 0 ≤ s.amount) →
      ∀ s ∈ (settleLoop fuel debtors creditors i j acc).emitted, 0 ≤ s.amount := by
  induction fuel with
  | zero =>
    intro debtors creditors i j acc hacc s hs
    simpa [settleLoop, SettleResult.emitted] using hacc s hs
  | succ fuel ih =>
    intro debtors creditors i j acc hacc s hs
    rw [settleLoop] at hs
    by_cases hguard : i < debtors.length ∧ j < creditors.length
    · rw [if_pos hguard] at hs
      simp only at hs
      set d := debtors.getD i ("", 0) with hd
      set c := creditors.getD j ("", 0) with hc
      set amount := min |d.2| |c.2| with hamount
      set acc2 := if 0 < amount then acc ++ [⟨d.1, c.1, round2 amount⟩] else acc
        with hacc2def
      have hacc2 : ∀ s ∈ acc2, 0 ≤ s.amount := by
        rw [hacc2def]
        split_ifs with hpos
        · intro s hs2
          rcases List.mem_append.mp hs2 with hmem | hmem
          · exact hacc s hmem
          · have : s = ⟨d.1, c.1, round2 amount⟩ := by simpa using hmem
            rw [this]
            exact round2_nonneg _ (le_min (abs_nonneg _) (abs_nonneg _))
        · exact hacc
      split_ifs at hs <;>
        first
          | exact ih _ _ _ _ _ hacc2 s hs
          | simpa [SettleResult.emitted] using hacc2 s hs
    · rw [if_neg hguard] at hs
      simpa [SettleResult.emitted] using hacc s hs

/-! Claim theorems. -/

/-- C9: for the empty record sequence, the balances computation returns an
empty mapping and the settlements computation returns an empty settlement
list; neither reports an error. -/
theorem empty_records_give_empty_results :
    get_balances [] = [] ∧ get_settlements [] = .ok [] := by
  constructor <;> simp [get_balances, get_settlements]

/-- C10: a non-empty record sequence has at least one distinct payer, so the
fair-share division never divides by zero and the `num_people == 0`
early-return branch of get_balances and get_settlements is unreachable. -/
theorem num_people_pos_of_rows_nonempty (rows : List ExpenseRecord)
    (h : rows ≠ []) : 0 < num_people rows :=
  Nat.pos_of_ne_zero (num_people_ne_zero rows h)

/-- Witness for C10 at the one-record input. -/
theorem num_people_pos_of_rows_nonempty_witness :
    ([⟨1, "Z"⟩] : List ExpenseRecord) ≠ [] ∧
      0 < num_people [⟨1, "Z"⟩] :=
  ⟨by simp, num_people_pos_of_rows_nonempty [⟨1, "Z"⟩] (by simp)⟩

/-- C7: on the records [(100.00, Alice), (50.00, Bob)] the balances are
{Alice: 25.00, Bob: -25.00} as claimed, but get_settlements raises
IndexError (writing debtors[1] with len(debtors) == 1) after appending the
single transfer (Bob to Alice, 25.00), instead of returning it. -/
theorem scenario_two_payers_crashes :
    get_balances [⟨100, "Alice"⟩, ⟨50, "Bob"⟩] =
      [("Alice", 25), ("Bob", -25)] ∧
    get_settlements [⟨100, "Alice"⟩, ⟨50, "Bob"⟩] =
      .indexError [⟨"Bob", "Alice", 25⟩] := by
  constructor
  · simp [get_balances, raw_balances, addAmount, fair_share, total_amount,
      num_people]
    norm_num [round2, rhe]
  · simp [get_settlements, computeSettlements, settlement_balances,
      raw_balances, addAmount, fair_share, total_amount, num_people]
    norm_num [settleLoop, round2, rhe]

/-- C6: on the records [(60.00, A), (30.00, B), (30.00, C)] the balances are
{A: 20.00, B: -10.00, C: -10.00} as claimed, but get_settlements emits only
(B to A, 10.00) and then raises IndexError — after the first iteration the
loop overwrites the unprocessed entry debtors[1] (payer C) with the stale
tuple (B, -0.0), and the next iteration advances past the end — instead of
returning [(B to A, 10.00), (C to A, 10.00)]. -/
theorem scenario_three_payers_crashes :
    get_balances [⟨60, "A"⟩, ⟨30, "B"⟩, ⟨30, "C"⟩] =
      [("A", 20), ("B", -10), ("C", -10)] ∧
    get_settlements [⟨60, "A"⟩, ⟨30, "B"⟩, ⟨30, "C"⟩] =
      .indexError [⟨"B", "A", 10⟩] := by
  constructor
  · simp [get_balances, raw_balances, addAmount, fair_share, total_amount,
      num_people]
    norm_num [round2, rhe]
  · simp [get_settlements, computeSettlements, settlement_balances,
      raw_balances, addAmount, fair_share, total_amount, num_people]
    norm_num [settleLoop, round2, rhe]

/-- C1: on the records [(90.00, P), (30.00, Q), (30.00, R), (30.00, S)] the
settlements computation raises IndexError after emitting only
(Q to P, 15.00); applying the emitted settlements, in the claim's sense, to
the balances {P: 45, Q: -15, R: -15, S: -15} leaves payer R at -15.00,
which is not within one cent of zero — the claimed post-state is not
reached. -/
theorem settlements_crash_leaves_unsettled_balance :
    get_settlements [⟨90, "P"⟩, ⟨30, "Q"⟩, ⟨30, "R"⟩, ⟨30, "S"⟩] =
      .indexError [⟨"Q", "P", 15⟩] ∧
    lookupAmt
      (applySettlements
        (get_balances [⟨90, "P"⟩, ⟨30, "Q"⟩, ⟨30, "R"⟩, ⟨30, "S"⟩])
        (get_settlements [⟨90, "P"⟩, ⟨30, "Q"⟩, ⟨30, "R"⟩, ⟨30, "S"⟩]).emitted)
      "R" = -15 ∧
    ¬ |(-15 : ℚ)| ≤ 1/100 := by
  have h1 : get_settlements [⟨90, "P"⟩, ⟨30, "Q"⟩, ⟨30, "R"⟩, ⟨30, "S"⟩] =
      .indexError [⟨"Q", "P", 15⟩] := by
    simp [get_settlements, computeSettlements, settlement_balances,
      raw_balances, addAmount, fair_share, total_amount, num_people]
    norm_num [settleLoop, round2, rhe]
  have h2 : get_balances [⟨90, "P"⟩, ⟨30, "Q"⟩, ⟨30, "R"⟩, ⟨30, "S"⟩] =
      [("P", 45), ("Q", -15), ("R", -15), ("S", -15)] := by
    simp [get_balances, raw_balances, addAmount, fair_share, total_amount,
      num_people]
    norm_num [round2, rhe]
  refine ⟨h1, ?_, by norm_num⟩
  rw [h1, h2]
  simp [SettleResult.emitted, applySettlements, addAmount, lookupAmt]

/-- C2: the matching loop does not terminate normally when a pointer
exhausts its list: on the balance mapping {Alice: 25.00, Bob: -25.00} the
planner performs the out-of-range list assignment `debtors[1] = None` (both
pointers advance together past their one-element lists) and raises
IndexError instead of returning the emitted transfer. -/
theorem settlement_loop_out_of_range_write :
    computeSettlements [("Alice", 25), ("Bob", -25)] =
      .indexError [⟨"Bob", "Alice", 25⟩] := by
  norm_num [computeSettlements, settleLoop, round2, rhe]

/-- C3 counterexample: on the records [(0.50, A), (0.25, B)] the balance of
A is paid(A) - fair_share = 0.50 - 0.375 = 0.125, exactly halfway between
two cents; get_balances returns 0.12 (Python round, ties to even), while
the claimed round-half-up (ties away from zero) gives 0.13. -/
theorem get_balances_not_rounded_half_up :
    lookupAmt (get_balances [⟨1/2, "A"⟩, ⟨1/4, "B"⟩]) "A" = 12/100 ∧
    roundHalfUp2 (paid_total "A" [⟨1/2, "A"⟩, ⟨1/4, "B"⟩] -
      fair_share [⟨1/2, "A"⟩, ⟨1/4, "B"⟩]) = 13/100 ∧
    (12/100 : ℚ) ≠ 13/100 := by
  refine ⟨?_, ?_, by norm_num⟩
  · simp [get_balances, raw_balances, addAmount, fair_share, total_amount,
      num_people, lookupAmt]
    norm_num [round2, rhe]
  · simp [paid_total, fair_share, total_amount, num_people]
    norm_num [roundHalfUp2, rhu]

/-- C3 amended: for every record sequence and every payer occurring in it,
get_balances returns paid(p) minus fair_share rounded to 2 fraction digits
with Python's builtin round — round-half-to-even (banker's rounding), ties
going to the even cent, not round-half-up. -/
theorem get_balances_rounds_half_even (rows : List ExpenseRecord)
    (p : String) (h : p ∈ rows.map ExpenseRecord.paid_by) :
    lookupAmt (get_balances rows) p =
      round2 (paid_total p rows - fair_share rows) := by
  have hrows : rows ≠ [] := by rintro rfl; simp at h
  have hnp : ¬ num_people rows = 0 := num_people_ne_zero rows hrows
  have hk : p ∈ keysOf (raw_balances rows) := by
    rw [raw_balances, mem_keysOf_foldl]
    right
    exact h
  unfold get_balances
  rw [if_neg hrows, if_neg hnp, lookupAmt_map_round_sub _ _ _ hk,
    lookupAmt_raw_balances]

/-- Witness for the amended C3 at a one-record input. -/
theorem get_balances_rounds_half_even_witness :
    "W" ∈ ([⟨10, "W"⟩] : List ExpenseRecord).map ExpenseRecord.paid_by ∧
    lookupAmt (get_balances [⟨10, "W"⟩]) "W" =
      round2 (paid_total "W" [⟨10, "W"⟩] - fair_share [⟨10, "W"⟩]) :=
  ⟨by simp, get_balances_rounds_half_even [⟨10, "W"⟩] "W" (by simp)⟩

/-- C4 counterexample: on the non-empty records
[(0.03, A), (0.01, B), (0.01, C), (0.01, D), (0.01, E)] the fair share is
0.014, the rounded balances are {A: 0.02, B: 0, C: 0, D: 0, E: 0}, and
their sum is 0.02 — more than one cent away from zero. -/
theorem balances_sum_can_exceed_one_cent :
    ([⟨3/100, "A"⟩, ⟨1/100, "B"⟩, ⟨1/100, "C"⟩, ⟨1/100, "D"⟩,
      ⟨1/100, "E"⟩] : List ExpenseRecord) ≠ [] ∧
    ((get_balances [⟨3/100, "A"⟩, ⟨1/100, "B"⟩, ⟨1/100, "C"⟩, ⟨1/100, "D"⟩,
      ⟨1/100, "E"⟩]).map Prod.snd).sum = 1/50 ∧
    ¬ |(1/50 : ℚ)| ≤ 1/100 := by
  refine ⟨by simp, ?_,
    by rw [abs_of_pos (show (0:ℚ) < 1/50 by norm_num)]; norm_num⟩
  simp [get_balances, raw_balances, addAmount, fair_share, total_amount,
    num_people]
  norm_num [round2, rhe]

/-- C4 amended: for every record sequence the sum of the balances returned
by get_balances is within one cent per payer of zero (at most
num_people * 0.01 in absolute value), the tolerance the spec itself states
for the data-model invariant; the one-cent bound does not hold. -/
theorem abs_sum_balances_le_cent_per_person (rows : List ExpenseRecord) :
    |((get_balances rows).map Prod.snd).sum| ≤ (num_people rows : ℚ) / 100 := by
  by_cases hrows : rows = []
  · subst hrows
    simp [get_balances]
    positivity
  by_cases hnp : num_people rows = 0
  · simp [get_balances, hrows, hnp]
  have hnQ : (num_people rows : ℚ) ≠ 0 := Nat.cast_ne_zero.mpr hnp
  unfold get_balances
  rw [if_neg hrows, if_neg hnp]
  have hmm : (((raw_balances rows).map
      (fun pb => (pb.1, round2 (pb.2 - fair_share rows)))).map Prod.snd)
      = ((raw_balances rows).map (fun pb => pb.2 - fair_share rows)).map
        round2 := by
    simp only [List.map_map]
    rfl
  rw [hmm]
  have h0 : ((raw_balances rows).map
      (fun pb => pb.2 - fair_share rows)).sum = 0 := by
    rw [sum_map_snd_sub_const, sum_snd_raw_balances, length_raw_balances,
      fair_share]
    field_simp
  have hb := abs_sum_map_round2_sub_le
    ((raw_balances rows).map (fun pb => pb.2 - fair_share rows))
  rw [h0, sub_zero, List.length_map, length_raw_balances] at hb
  have hn0 : (0:ℚ) ≤ (num_people rows : ℚ) := Nat.cast_nonneg _
  linarith

/-- C5 counterexample: on the records [(0.04, A), (0.03, B)] the unrounded
balances are {A: 0.005, B: -0.005}, so get_settlements runs one loop
iteration and raises IndexError after emitting (B to A, 0.00); but
get_balances rounds both balances to 0.00, so the planner applied to its
output finds no debtors and no creditors and returns the empty list — the
two computations disagree. -/
theorem get_settlements_ne_planner_on_rounded :
    get_settlements [⟨1/25, "A"⟩, ⟨3/100, "B"⟩] =
      .indexError [⟨"B", "A", 0⟩] ∧
    computeSettlements (get_balances [⟨1/25, "A"⟩, ⟨3/100, "B"⟩]) = .ok [] ∧
    get_settlements [⟨1/25, "A"⟩, ⟨3/100, "B"⟩] ≠
      computeSettlements (get_balances [⟨1/25, "A"⟩, ⟨3/100, "B"⟩]) := by
  have h1 : get_settlements [⟨1/25, "A"⟩, ⟨3/100, "B"⟩] =
      .indexError [⟨"B", "A", 0⟩] := by
    simp [get_settlements, computeSettlements, settlement_balances,
      raw_balances, addAmount, fair_share, total_amount, num_people]
    norm_num [settleLoop, round2, rhe, abs_of_pos, abs_of_neg]
  have h2 : computeSettlements (get_balances [⟨1/25, "A"⟩, ⟨3/100, "B"⟩]) =
      .ok [] := by
    simp [get_balances, raw_balances, addAmount, fair_share, total_amount,
      num_people]
    norm_num [computeSettlements, settleLoop, round2, rhe]
  refine ⟨h1, h2, ?_⟩
  rw [h1, h2]
  simp

/-- C5 amended: get_settlements coincides with the settlement planner
applied to the UNROUNDED balance mapping paid(p) - fair_share that it
recomputes internally, not with the planner applied to the rounded output
of get_balances. -/
theorem get_settlements_eq_planner_on_unrounded (rows : List ExpenseRecord) :
    get_settlements rows = computeSettlements (settlement_balances rows) := by
  unfold get_settlements settlement_balances
  split_ifs
  · norm_num [computeSettlements, settleLoop]
  · norm_num [computeSettlements, settleLoop]
  · rfl

/-- C8 counterexample: on the records [(0.02, A), (0.01, B)] the unrounded
balances are {A: 0.005, B: -0.005}; the loop matches min(0.005, 0.005),
which is positive, but stores round(0.005, 2) = 0.00, so the emitted
settlement carries amount 0.00, not an amount strictly greater than
zero. -/
theorem settlement_with_zero_amount_emitted :
    (⟨"B", "A", 0⟩ : Settlement) ∈
      (get_settlements [⟨2/100, "A"⟩, ⟨1/100, "B"⟩]).emitted ∧
    ¬ (0 : ℚ) < (⟨"B", "A", 0⟩ : Settlement).amount := by
  have h : get_settlements [⟨2/100, "A"⟩, ⟨1/100, "B"⟩] =
      .indexError [⟨"B", "A", 0⟩] := by
    simp [get_settlements, computeSettlements, settlement_balances,
      raw_balances, addAmount, fair_share, total_amount, num_people]
    norm_num [settleLoop, round2, rhe, abs_of_pos, abs_of_neg]
  constructor
  · rw [h]
    simp [SettleResult.emitted]
  · norm_num

/-- C8 amended: every settlement emitted by the settlements computation
carries a nonnegative amount — the unrounded matched quantity
min(debt, credit) is strictly positive when a settlement is emitted, but
the recorded amount is that minimum rounded to 2 fraction digits, which can
be zero. -/
theorem emitted_settlement_amounts_nonneg (rows : List ExpenseRecord)
    (s : Settlement) (hs : s ∈ (get_settlements rows).emitted) :
    0 ≤ s.amount := by
  unfold get_settlements at hs
  split_ifs at hs with h1 h2
  · simp [SettleResult.emitted] at hs
  · simp [SettleResult.emitted] at hs
  · unfold computeSettlements at hs
    exact settleLoop_emitted_nonneg _ _ _ _ _ _ (by simp) s hs

/-- Witness for the amended C8 at the two-record input whose single emitted
settlement carries amount 25. -/
theorem emitted_settlement_amounts_nonneg_witness :
    (⟨"Bob", "Alice", 25⟩ : Settlement) ∈
      (get_settlements [⟨100, "Alice"⟩, ⟨50, "Bob"⟩]).emitted ∧
    0 ≤ (⟨"Bob", "Alice", 25⟩ : Settlement).amount := by
  have hmem : (⟨"Bob", "Alice", 25⟩ : Settlement) ∈
      (get_settlements [⟨100, "Alice"⟩, ⟨50, "Bob"⟩]).emitted := by
    have h : get_settlements [⟨100, "Alice"⟩, ⟨50, "Bob"⟩] =
        .indexError [⟨"Bob", "Alice", 25⟩] := by
      simp [get_settlements, computeSettlements, settlement_balances,
        raw_balances, addAmount, fair_share, total_amount, num_people]
      norm_num [settleLoop, round2, rhe]
    rw [h]
    simp [SettleResult.emitted]
  exact ⟨hmem, emitted_settlement_amounts_nonneg _ _ hmem⟩
